import Mathlib

/-!
Verification of the download coordinator of Cnchi
(`src/cnchi/download/download.py`, class `DownloadPackages`).

The module is shallowly embedded: the download set (a Python `dict` keyed by
file key, iterated in insertion order) is an association list, the metalink
resolver (`pac.Pac` + `ml.create`/`ml.get_info`), the download backends and
the settings store are external collaborators and are abstracted by
parameters, and the events pushed through `queue_event` are `(type, text)`
pairs.  Python's `str` applied to a rounded float is injective on the values
that occur, so a percent text is modelled by the rounded rational itself
(`EventText.num`), distinct from every literal string (`EventText.str`).
-/

namespace Cnchi

/-- Text payload of an event: either a string literal from the source, or the
numeric value of `str(percent)` (Python's `str` is injective on floats, and no
literal string used by the module collides with a float rendering, so the
rounded value itself is a faithful stand-in for its string form). -/
inductive EventText where
  | str (s : String)
  | num (q : ℚ)
deriving DecidableEq

/-- An event as passed to `queue_event`: `(event_type, event_text)`. -/
abbrev Event := String × EventText

/-- Association-list lookup, modelling Python `d[k]` / `k in d` on a dict
represented in insertion order. -/
def alookup (k : String) : List (String × V) → Option V
  | [] => none
  | (k', v) :: rest => if k' = k then some v else alookup k rest

/-- Association-list update, modelling Python `d[k] = v` (updates in place if
the key exists, otherwise appends, preserving insertion order). -/
def setAssoc (m : List (String × V)) (k : String) (v : V) : List (String × V) :=
  match m with
  | [] => [(k, v)]
  | (k', v') :: rest => if k' = k then (k, v) :: rest else (k', v') :: setAssoc rest k v

/-- Left-biased choice on options (first hit wins). -/
def orO (a b : Option V) : Option V :=
  match a with
  | some v => some v
  | none => b

@[simp] lemma orO_none_left (b : Option V) : orO none b = b := rfl

@[simp] lemma orO_some_left (v : V) (b : Option V) : orO (some v) b = some v := rfl

@[simp] lemma orO_none_right (a : Option V) : orO a none = a := by
  cases a <;> rfl

lemma orO_assoc (a b c : Option V) : orO (orO a b) c = orO a (orO b c) := by
  cases a <;> rfl

@[simp] lemma alookup_nil (k : String) : alookup k ([] : List (String × V)) = none := rfl

lemma alookup_append (k : String) (l₁ l₂ : List (String × V)) :
    alookup k (l₁ ++ l₂) = orO (alookup k l₁) (alookup k l₂) := by
  induction l₁ with
  | nil => simp [alookup]
  | cons kv rest ih =>
    obtain ⟨k', v⟩ := kv
    by_cases h : k' = k
    · simp [alookup, h]
    · simp [alookup, h, ih]

lemma alookup_setAssoc_self (m : List (String × V)) (k : String) (v : V) :
    alookup k (setAssoc m k v) = some v := by
  induction m with
  | nil => simp [setAssoc, alookup]
  | cons kv rest ih =>
    obtain ⟨k', v'⟩ := kv
    by_cases h : k' = k
    · simp [setAssoc, h, alookup]
    · simp [setAssoc, h, alookup, ih]

lemma alookup_setAssoc_ne (m : List (String × V)) (k k' : String) (v : V) (h : k' ≠ k) :
    alookup k' (setAssoc m k v) = alookup k' m := by
  have h2 : ¬ k = k' := fun hh => h hh.symm
  induction m with
  | nil => simp [setAssoc, alookup, h2]
  | cons kv rest ih =>
    obtain ⟨k₀, v₀⟩ := kv
    by_cases h0 : k₀ = k
    · subst h0
      simp [setAssoc, alookup, h2]
    · simp [setAssoc, h0, alookup, ih]

/-! ### Python `round(x, 2)` (banker's rounding)

`create_downloads_list` computes `round(float(processed / total), 2)`.
Python rounds half to even.  The float approximation of the exact quotient is
abstracted to the exact rational value. -/

/-- Round a rational to the nearest integer, half to even (Python's `round`). -/
def rhe (x : ℚ) : ℤ :=
  if x - (⌊x⌋ : ℚ) < 1 / 2 then ⌊x⌋
  else if 1 / 2 < x - (⌊x⌋ : ℚ) then ⌊x⌋ + 1
  else if ⌊x⌋ % 2 = 0 then ⌊x⌋ else ⌊x⌋ + 1

/-- Python `round(x, 2)`: round to two decimal places, half to even. -/
def pyRound2 (x : ℚ) : ℚ := ((rhe (x * 100) : ℚ)) / 100

lemma floor_le_rhe (x : ℚ) : ⌊x⌋ ≤ rhe x := by
  unfold rhe
  split_ifs <;> omega

lemma rhe_le_floor_add_one (x : ℚ) : rhe x ≤ ⌊x⌋ + 1 := by
  unfold rhe
  split_ifs <;> omega

lemma rhe_mono {x y : ℚ} (h : x ≤ y) : rhe x ≤ rhe y := by
  have hf : ⌊x⌋ ≤ ⌊y⌋ := Int.floor_le_floor h
  rcases lt_or_eq_of_le hf with hlt | heq
  · calc rhe x ≤ ⌊x⌋ + 1 := rhe_le_floor_add_one x
      _ ≤ ⌊y⌋ := by omega
      _ ≤ rhe y := floor_le_rhe y
  · unfold rhe
    rw [← heq]
    have hc : (⌊x⌋ : ℚ) ≤ (⌊y⌋ : ℚ) := by exact_mod_cast hf
    have hc' : (⌊y⌋ : ℚ) = (⌊x⌋ : ℚ) := by exact_mod_cast heq.symm
    split_ifs <;> first | omega | linarith

lemma rhe_zero : rhe 0 = 0 := by
  norm_num [rhe]

lemma rhe_hundred : rhe 100 = 100 := by
  norm_num [rhe]

lemma pyRound2_zero : pyRound2 0 = 0 := by
  norm_num [pyRound2, rhe_zero]

lemma pyRound2_one : pyRound2 1 = 1 := by
  norm_num [pyRound2, rhe_hundred]

lemma pyRound2_mono {x y : ℚ} (h : x ≤ y) : pyRound2 x ≤ pyRound2 y := by
  unfold pyRound2
  have h1 : rhe (x * 100) ≤ rhe (y * 100) := rhe_mono (by linarith)
  have h2 : ((rhe (x * 100) : ℤ) : ℚ) ≤ ((rhe (y * 100) : ℤ) : ℚ) := by exact_mod_cast h1
  linarith

/-! ### The download-set builder (`create_downloads_list`) -/

/-- Merge one metalink descriptor into the accumulating download set:
`for key in metalink_info: if key not in self.downloads_list:
self.downloads_list[key] = metalink_info[key]`. -/
def mergeInfo (dl : List (String × V)) : List (String × V) → List (String × V)
  | [] => dl
  | kv :: rest => mergeInfo (if (alookup kv.1 dl).isSome then dl else dl ++ [kv]) rest

lemma alookup_mergeInfo (k : String) :
    ∀ (info dl : List (String × V)),
      alookup k (mergeInfo dl info) = orO (alookup k dl) (alookup k info) := by
  intro info
  induction info with
  | nil => intro dl; simp [mergeInfo]
  | cons kv rest ih =>
    intro dl
    obtain ⟨k', v⟩ := kv
    by_cases hk : (alookup k' dl).isSome
    · rw [mergeInfo, if_pos hk, ih]
      by_cases hkk : k' = k
      · subst hkk
        obtain ⟨w, hw⟩ := Option.isSome_iff_exists.mp hk
        simp [alookup, hw]
      · simp [alookup, hkk]
    · rw [mergeInfo, if_neg hk, ih, alookup_append]
      by_cases hkk : k' = k
      · subst hkk
        have hnone : alookup k' dl = none := Option.not_isSome_iff_eq_none.mp hk
        simp [alookup, hnone]
      · simp [alookup, hkk]

/-- External collaborators of `create_downloads_list`:
`pacInit` models whether `pac.Pac(conf_path=..., callback_queue=...)`
initializes without raising; `resolver` models
`ml.create(pacman, name, conf)` composed with `ml.get_info` (`none` when
`ml.create` returns `None`); `releaseOk` models whether `pacman.release()`
succeeds.  (The source's `if pacman is None: return None` branch is
unreachable: a Python constructor call never yields `None`.) -/
structure BuildEnv (V : Type) where
  pacInit : Bool
  resolver : String → Option (List (String × V))
  releaseOk : Bool

/-- The first entry retained for a key under the spec's merge policy: the
`FileEntry` from the first package (in input order) whose descriptor contains
the key. -/
def firstEntry (resolver : String → Option (List (String × V))) :
    List String → String → Option V
  | [], _ => none
  | n :: rest, k =>
    match resolver n with
    | none => none
    | some i =>
      match alookup k i with
      | some v => some v
      | none => firstEntry resolver rest k

lemma firstEntry_cons_some {resolver : String → Option (List (String × V))}
    {n : String} {i : List (String × V)} (rest : List String) (k : String)
    (hi : resolver n = some i) :
    firstEntry resolver (n :: rest) k = orO (alookup k i) (firstEntry resolver rest k) := by
  rw [firstEntry, hi]
  cases h : alookup k i <;> simp [h, orO]

/-- The per-package loop of `create_downloads_list`: resolve each package in
input order, merge its descriptor, bump `processed_packages` and emit
`('percent', str(round(processed/total, 2)))`; a failed resolution raises
`InstallError`, caught by the surrounding `except`, leaving `downloads_list =
None`.  Returns the final `downloads_list` value together with the trace of
`queue_event` calls made so far. -/
def buildLoop (resolver : String → Option (List (String × V)))
    (names : List String) (dl : List (String × V)) (processed total : ℕ)
    (evs : List Event) : Option (List (String × V)) × List Event :=
  match names with
  | [] => (some dl, evs)
  | n :: rest =>
    match resolver n with
    | none => (none, evs)
    | some info =>
      buildLoop resolver rest (mergeInfo dl info) (processed + 1) total
        (evs ++ [("percent", EventText.num (pyRound2 (((processed : ℚ) + 1) / (total : ℚ))))])

/-- Text of the initial `'info'` event (the gettext `_` translation function
is the identity on the source language). -/
def infoCreatingText : String := "Creating the list of packages to download..."

/-- Shallow embedding of `DownloadPackages.create_downloads_list`.  Returns
the final value of `self.downloads_list` (`none` = Python `None`) and the
trace of `queue_event` calls issued by the builder, in order. -/
def createDownloadsList (env : BuildEnv V) (names : List String) :
    Option (List (String × V)) × List Event :=
  let evs0 : List Event :=
    [("percent", EventText.str "0"), ("info", EventText.str infoCreatingText)]
  if env.pacInit = false then (none, evs0)
  else
    let r := buildLoop env.resolver names [] 0 names.length evs0
    match r.1 with
    | none => (none, r.2)
    | some dl =>
      if env.releaseOk = false then (none, r.2)
      else (some dl, r.2 ++ [("info", EventText.str "")])

lemma buildLoop_ok (resolver : String → Option (List (String × V))) :
    ∀ (names : List String) (dl : List (String × V)) (p t : ℕ) (evs : List Event),
      (∀ n ∈ names, (resolver n).isSome) →
      ∃ dl', (buildLoop resolver names dl p t evs).1 = some dl' ∧
        ∀ k, alookup k dl' = orO (alookup k dl) (firstEntry resolver names k) := by
  intro names
  induction names with
  | nil =>
    intro dl p t evs _
    exact ⟨dl, rfl, fun k => by simp [firstEntry]⟩
  | cons n rest ih =>
    intro dl p t evs hres
    obtain ⟨i, hi⟩ := Option.isSome_iff_exists.mp (hres n (by simp))
    obtain ⟨dl', h1, h2⟩ :=
      ih (mergeInfo dl i) (p + 1) t
        (evs ++ [("percent", EventText.num (pyRound2 (((p : ℚ) + 1) / (t : ℚ))))])
        (fun m hm => hres m (by simp [hm]))
    refine ⟨dl', by rw [buildLoop, hi]; exact h1, fun k => ?_⟩
    rw [h2 k, alookup_mergeInfo, firstEntry_cons_some rest k hi, orO_assoc]

lemma buildLoop_none_of_fail (resolver : String → Option (List (String × V))) :
    ∀ (names : List String) (dl : List (String × V)) (p t : ℕ) (evs : List Event),
      (∃ n ∈ names, resolver n = none) →
      (buildLoop resolver names dl p t evs).1 = none := by
  intro names
  induction names with
  | nil => intro dl p t evs h; simp at h
  | cons n rest ih =>
    intro dl p t evs h
    cases hn : resolver n with
    | none => rw [buildLoop, hn]
    | some i =>
      rw [buildLoop, hn]
      apply ih
      obtain ⟨m, hm, hmr⟩ := h
      rcases List.mem_cons.mp hm with rfl | hmem
      · rw [hn] at hmr; cases hmr
      · exact ⟨m, hmem, hmr⟩

lemma buildLoop_trace (resolver : String → Option (List (String × V))) :
    ∀ (names : List String) (dl : List (String × V)) (p t : ℕ) (evs : List Event),
      (∀ n ∈ names, (resolver n).isSome) →
      (buildLoop resolver names dl p t evs).2
        = evs ++ (List.range names.length).map
            (fun (j : ℕ) => ("percent",
              EventText.num (pyRound2 (((p : ℚ) + (j : ℚ) + 1) / (t : ℚ))))) := by
  intro names
  induction names with
  | nil => intro dl p t evs _; simp [buildLoop]
  | cons n rest ih =>
    intro dl p t evs hres
    obtain ⟨i, hi⟩ := Option.isSome_iff_exists.mp (hres n (by simp))
    rw [buildLoop, hi, ih _ _ _ _ (fun m hm => hres m (by simp [hm]))]
    rw [List.length_cons, List.range_succ_eq_map, List.map_cons, List.map_map]
    rw [List.append_assoc, List.singleton_append]
    congr 2
    · norm_num
    · congr 1
      funext j
      simp only [Function.comp_apply, Prod.mk.injEq, EventText.num.injEq, true_and]
      congr 1
      push_cast
      ring

/-- The event trace of a fully successful `create_downloads_list` run:
initial `'percent'`/`'info'` events, one `'percent'` event per package with
the rounded fraction of processed packages, and a final empty `'info'`
event. -/
def successTrace (n : ℕ) : List Event :=
  [("percent", EventText.str "0"), ("info", EventText.str infoCreatingText)]
    ++ (List.range n).map
        (fun (j : ℕ) => ("percent", EventText.num (pyRound2 (((j : ℚ) + 1) / (n : ℚ)))))
    ++ [("info", EventText.str "")]

lemma createDownloadsList_success (env : BuildEnv V) (names : List String)
    (hinit : env.pacInit = true) (hrel : env.releaseOk = true)
    (hres : ∀ n ∈ names, (env.resolver n).isSome) :
    ∃ dl, createDownloadsList env names = (some dl, successTrace names.length) ∧
      ∀ k, alookup k dl = firstEntry env.resolver names k := by
  obtain ⟨dl, h1, h2⟩ := buildLoop_ok env.resolver names [] 0 names.length
    [("percent", EventText.str "0"), ("info", EventText.str infoCreatingText)] hres
  have htr := buildLoop_trace env.resolver names [] 0 names.length
    [("percent", EventText.str "0"), ("info", EventText.str infoCreatingText)] hres
  refine ⟨dl, ?_, fun k => by rw [h2 k]; simp⟩
  rw [createDownloadsList]
  simp only [hinit, hrel, Bool.true_eq_false, if_false]
  rw [h1]
  simp only [if_false]
  rw [htr]
  simp [successTrace]

/-! ### The progress/event reporter (`queue_event`) -/

/-- The sink: a bounded `queue.Queue` seen from the producer side.  `items`
are the queued events in order; `put_nowait` raises `queue.Full` when
`capacity` many items are already queued. -/
structure QueueState where
  items : List Event
  capacity : ℕ
deriving DecidableEq

/-- `callback_queue.put_nowait(ev)`: `none` models the `queue.Full`
exception. -/
def put_nowait (qs : QueueState) (ev : Event) : Option QueueState :=
  if qs.items.length < qs.capacity then some ⟨qs.items ++ [ev], qs.capacity⟩ else none

/-- The coordinator state that `queue_event` touches: the per-instance
`last_event` dict and the optional sink. -/
structure DState where
  last_event : List (String × EventText)
  callback_queue : Option QueueState
deriving DecidableEq

/-- Outcome of one `queue_event` call: the new state, the event put on the
sink (if any), and the event written to the diagnostic log (if any). -/
structure QEOut where
  state : DState
  delivered : Option Event
  logged : Option Event
deriving DecidableEq

/-- Shallow embedding of `DownloadPackages.queue_event`.  With no sink,
non-`'percent'` events go to the log; with a sink, an event equal to the last
recorded text of its type is dropped, otherwise `last_event` is updated and a
non-blocking enqueue is attempted, silently dropping the event when the queue
is full. -/
def queue_event (st : DState) (event_type : String) (event_text : EventText) : QEOut :=
  match st.callback_queue with
  | none =>
    if event_type ≠ "percent" then ⟨st, none, some (event_type, event_text)⟩
    else ⟨st, none, none⟩
  | some qs =>
    if alookup event_type st.last_event = some event_text then ⟨st, none, none⟩
    else
      let le := setAssoc st.last_event event_type event_text
      match put_nowait qs (event_type, event_text) with
      | some qs' => ⟨⟨le, some qs'⟩, some (event_type, event_text), none⟩
      | none => ⟨⟨le, some qs⟩, none, none⟩

/-- Run a sequence of `queue_event` calls. -/
def runEvents (st : DState) (evs : List Event) : DState :=
  evs.foldl (fun s e => (queue_event s e.1 e.2).state) st

/-- Events currently on the sink (empty when no sink is configured). -/
def sinkItems (st : DState) : List Event :=
  match st.callback_queue with
  | some qs => qs.items
  | none => []

/-- Texts of the delivered events of one type, in delivery order. -/
def textsOf (items : List Event) (T : String) : List EventText :=
  (items.filter (fun e => e.1 == T)).map (fun e => e.2)

/-- Per-type texts currently on the sink. -/
def sinkTexts (st : DState) (T : String) : List EventText :=
  textsOf (sinkItems st) T

lemma textsOf_append (l₁ l₂ : List Event) (T : String) :
    textsOf (l₁ ++ l₂) T = textsOf l₁ T ++ textsOf l₂ T := by
  simp [textsOf]

lemma textsOf_single_self (T : String) (x : EventText) :
    textsOf [(T, x)] T = [x] := by
  simp [textsOf]

lemma textsOf_single_ne (T U : String) (x : EventText) (h : T ≠ U) :
    textsOf [(T, x)] U = [] := by
  simp [textsOf, h]

/-- Appending a fresh element to a chain of pairwise-distinct neighbours. -/
lemma chain'_concat_of_ne (l : List EventText) (x : EventText)
    (h : List.Chain' (fun a b => a ≠ b) l)
    (hl : ∀ b, l.getLast? = some b → b ≠ x) :
    List.Chain' (fun a b => a ≠ b) (l ++ [x]) := by
  rw [List.chain'_append]
  refine ⟨h, List.chain'_singleton x, fun a ha y hy => ?_⟩
  simp only [List.head?_cons, Option.mem_def, Option.some.injEq] at hy
  subst hy
  exact hl a ha

/-- Invariant tying the sink contents to the dedup map: per type, delivered
texts never repeat back-to-back, and while the queue has never been full the
last recorded text of a type is the last delivered text of that type. -/
def DInv (st : DState) : Prop :=
  ∀ qs, st.callback_queue = some qs →
    (∀ T, List.Chain' (fun a b => a ≠ b) (textsOf qs.items T)) ∧
    (qs.items.length < qs.capacity →
      ∀ T, alookup T st.last_event = (textsOf qs.items T).getLast?)

lemma queue_event_preserves (st : DState) (T : String) (x : EventText)
    (h : DInv st) : DInv (queue_event st T x).state := by
  unfold queue_event
  cases hq : st.callback_queue with
  | none =>
    dsimp only
    by_cases hp : T ≠ "percent"
    · rw [if_pos hp]; exact h
    · rw [if_neg hp]; exact h
  | some qs =>
    obtain ⟨hch, hlk⟩ := h qs hq
    by_cases hdup : alookup T st.last_event = some x
    · simp only [hdup, if_true]
      intro qs' hqs'
      rw [hq] at hqs'
      cases hqs'
      exact ⟨hch, hlk⟩
    · simp only [hdup, if_false]
      cases hput : put_nowait qs (T, x) with
      | some qs' =>
        simp only []
        intro qs'' hqs''
        cases hqs''
        have hlen : qs.items.length < qs.capacity := by
          by_contra hlen
          unfold put_nowait at hput
          rw [if_neg hlen] at hput
          cases hput
        have hqs' : qs' = ⟨qs.items ++ [(T, x)], qs.capacity⟩ := by
          unfold put_nowait at hput
          rw [if_pos hlen] at hput
          exact (Option.some.inj hput).symm
        subst hqs'
        constructor
        · intro U
          by_cases hTU : T = U
          · subst hTU
            rw [textsOf_append, textsOf_single_self]
            refine chain'_concat_of_ne _ _ (hch T) (fun b hb => ?_)
            intro hbx
            subst hbx
            exact hdup ((hlk hlen T).trans hb)
          · rw [textsOf_append, textsOf_single_ne T U x hTU, List.append_nil]
            exact hch U
        · intro hlen' U
          simp only [List.length_append, List.length_singleton] at hlen'
          have hlenlt : qs.items.length < qs.capacity := by omega
          by_cases hTU : T = U
          · subst hTU
            rw [alookup_setAssoc_self, textsOf_append, textsOf_single_self,
              List.getLast?_concat]
          · rw [alookup_setAssoc_ne _ _ _ _ (fun hh => hTU hh.symm),
              textsOf_append, textsOf_single_ne T U x hTU, List.append_nil]
            exact hlk hlenlt U
      | none =>
        simp only []
        intro qs'' hqs''
        cases hqs''
        have hlen : ¬ qs.items.length < qs.capacity := by
          by_contra hlen
          unfold put_nowait at hput
          rw [if_pos hlen] at hput
          cases hput
        exact ⟨hch, fun hlen' => absurd hlen' hlen⟩

lemma runEvents_inv (evs : List Event) :
    ∀ st, DInv st → DInv (runEvents st evs) := by
  induction evs with
  | nil => intro st h; exact h
  | cons e rest ih =>
    intro st h
    exact ih _ (queue_event_preserves st e.1 e.2 h)

lemma DInv_fresh (c : ℕ) : DInv ⟨[], some ⟨[], c⟩⟩ := by
  intro qs hqs
  cases hqs
  exact ⟨fun T => by simp [textsOf], fun _ T => by simp [textsOf, alookup]⟩

lemma chain_of_inv (st : DState) (h : DInv st) (U : String) :
    List.Chain' (fun a b => a ≠ b) (sinkTexts st U) := by
  unfold sinkTexts sinkItems
  cases hq : st.callback_queue with
  | none => simp [textsOf]
  | some qs => exact (h qs hq).1 U

/-! ### `DownloadPackages.__init__` and `DownloadPackages.start`

The module's global scope defines only `os`, `logging`, `queue`, `pac`,
`ml`, `download_urllib`, `download_aria2`, `download_requests`,
`InstallError` and `DownloadPackages` (plus the gettext `_` installed into
builtins by the application).  The bare names `package_names`,
`pacman_cache_dir`, `cache_dir` and `callback_queue` read inside `start`
are not among them, so evaluating any of them raises `NameError`. -/

/-- Python exceptions surfaced by the embedded code. -/
inductive PyError where
  | nameError (n : String)
  | typeError (msg : String)
  | installError (msg : String)
deriving DecidableEq

/-- The instance attributes `__init__` assigns (besides `last_event`,
`callback_queue` and `settings`, which are modelled separately). -/
structure CoordState (V : Type) where
  pacman_conf_file : String
  pacman_cache_dir : String
  cache_dir : String
  download_module : String
  downloads_list : Option (List (String × V))

/-- Everything observable about one `start` call: its outcome, the
`settings.set` writes performed, the backend constructors invoked (by module
name) and the download sets passed to a backend's fetch. -/
structure StartOut (V : Type) where
  result : Except PyError Unit
  settingsWrites : List (String × Bool)
  backendCalls : List String
  fetchCalls : List (List (String × V))

/-- Shallow embedding of `DownloadPackages.start`.  `fetch` abstracts the
selected backend's `start(self.downloads_list)` call (never reached).  When
`self.downloads_list` is `None`, the call
`self.create_downloads_list(package_names)` evaluates the bare name
`package_names`, which is unbound, raising `NameError`; otherwise every
dispatch branch constructs a backend with the bare names
`pacman_cache_dir, cache_dir, callback_queue`, of which the first is
evaluated first and is unbound, raising `NameError`. -/
def start (st : CoordState V) (fetch : String → List (String × V) → Bool) : StartOut V :=
  match st.downloads_list with
  | none => ⟨Except.error (PyError.nameError "package_names"), [], [], []⟩
  | some _ =>
    if st.download_module = "aria2" then
      ⟨Except.error (PyError.nameError "pacman_cache_dir"), [], [], []⟩
    else if st.download_module = "urllib" then
      ⟨Except.error (PyError.nameError "pacman_cache_dir"), [], [], []⟩
    else
      ⟨Except.error (PyError.nameError "pacman_cache_dir"), [], [], []⟩

/-- Default `pacman.conf` path. -/
def defaultPacmanConf : String := "/etc/pacman.conf"

/-- Default package-manager cache directory (`self.pacman_cache_dir` when the
argument is `None`). -/
def defaultPacmanCacheDir : String := "/install/var/cache/pacman/pkg"

/-- Default generic cache directory. -/
def defaultCacheDir : String := "/var/cache/pacman/pkg"

/-- CPython's message for `os.makedirs(None, ...)`. -/
def makedirsNoneMsg : String := "expected str, bytes or os.PathLike object, not NoneType"

/-- A recorded `os.makedirs` invocation. -/
structure MkdirCall where
  path : String
  mode : ℕ
  exist_ok : Bool
deriving DecidableEq

/-- `os.makedirs(path, mode=0o755, exist_ok=True)`: raises `TypeError` when
`path` is `None`; otherwise creates the directory and any missing parents,
succeeding also when it already exists. -/
def makedirs : Option String → Except PyError MkdirCall
  | none => Except.error (PyError.typeError makedirsNoneMsg)
  | some d => Except.ok ⟨d, 0o755, true⟩

/-- Shallow embedding of `DownloadPackages.__init__`.  `fs` models
`os.path.exists`.  The `package_names` argument is accepted but never stored
on the instance (as in the source).  NOTE (faithful to the source): the
`os.makedirs` call receives the raw constructor argument `pacman_cache_dir`,
not the `self.pacman_cache_dir` attribute just computed from it. -/
def initDownloadPackages (V : Type) (package_names : List String)
    (download_module : String)
    (pacman_conf_file pacman_cache_dir cache_dir : Option String)
    (fs : String → Bool) : Except PyError (CoordState V × MkdirCall) :=
  let pcf := match pacman_conf_file with
    | none => defaultPacmanConf
    | some p => p
  let pcd := match pacman_cache_dir with
    | none => defaultPacmanCacheDir
    | some p => p
  let cd := match cache_dir with
    | none => defaultCacheDir
    | some p => if fs p then p else defaultCacheDir
  match makedirs pacman_cache_dir with
  | Except.error e => Except.error e
  | Except.ok mk =>
    Except.ok (⟨pcf, pcd, cd, download_module, none⟩, mk)

/-! ### Helpers for the claim statements -/

/-- The `'percent'` events of a trace, in emission order. -/
def percentEvents (evs : List Event) : List Event :=
  evs.filter (fun e => e.1 == "percent")

/-- Numeric value carried by an event text (string literals — here only the
initial `'0'` — denote their numeric value `0`). -/
def textVal : EventText → ℚ
  | EventText.str _ => 0
  | EventText.num q => q

lemma firstEntry_isSome_iff (resolver : String → Option (List (String × V))) :
    ∀ (names : List String) (k : String), (∀ n ∈ names, (resolver n).isSome) →
      ((firstEntry resolver names k).isSome ↔
        ∃ n ∈ names, ∃ i, resolver n = some i ∧ (alookup k i).isSome) := by
  intro names
  induction names with
  | nil => intro k _; simp [firstEntry]
  | cons n rest ih =>
    intro k hres
    obtain ⟨i, hi⟩ := Option.isSome_iff_exists.mp (hres n (by simp))
    rw [firstEntry_cons_some rest k hi]
    cases hik : alookup k i with
    | some v =>
      simp only [orO_some_left, Option.isSome_some, true_iff]
      exact ⟨n, by simp, i, hi, by simp [hik]⟩
    | none =>
      rw [orO_none_left, ih k (fun m hm => hres m (by simp [hm]))]
      constructor
      · rintro ⟨m, hm, j, hj, hkj⟩
        exact ⟨m, by simp [hm], j, hj, hkj⟩
      · rintro ⟨m, hm, j, hj, hkj⟩
        rcases List.mem_cons.mp hm with rfl | hm'
        · rw [hi] at hj
          cases hj
          rw [hik] at hkj
          simp at hkj
        · exact ⟨m, hm', j, hj, hkj⟩

lemma percentEvents_successTrace (n : ℕ) :
    percentEvents (successTrace n)
      = ("percent", EventText.str "0")
          :: (List.range n).map (fun (j : ℕ) =>
            ("percent", EventText.num (pyRound2 (((j : ℚ) + 1) / (n : ℚ))))) := by
  unfold successTrace percentEvents
  rw [List.filter_append, List.filter_append]
  have h1 : ([("percent", EventText.str "0"), ("info", EventText.str infoCreatingText)] :
      List Event).filter (fun e => e.1 == "percent")
      = [("percent", EventText.str "0")] := rfl
  have h2 : ([("info", EventText.str "")] : List Event).filter (fun e => e.1 == "percent")
      = [] := rfl
  have h3 : ((List.range n).map (fun (j : ℕ) =>
        (("percent", EventText.num (pyRound2 (((j : ℚ) + 1) / (n : ℚ)))) : Event))).filter
        (fun e => e.1 == "percent")
      = (List.range n).map (fun (j : ℕ) =>
        ("percent", EventText.num (pyRound2 (((j : ℚ) + 1) / (n : ℚ))))) := by
    apply List.filter_eq_self.mpr
    intro a ha
    obtain ⟨j, _, rfl⟩ := List.mem_map.mp ha
    rfl
  rw [h1, h2, h3, List.append_nil]
  rfl

lemma percentVals_successTrace (n : ℕ) :
    (percentEvents (successTrace n)).map (fun e => textVal e.2)
      = (List.range (n + 1)).map (fun (j : ℕ) => pyRound2 ((j : ℚ) / (n : ℚ))) := by
  rw [percentEvents_successTrace, List.map_cons, List.map_map]
  rw [List.range_succ_eq_map, List.map_cons, List.map_map]
  congr 1
  · norm_num [textVal, pyRound2_zero]
  · congr 1
    funext j
    simp only [Function.comp_apply, textVal]
    congr 1
    push_cast
    ring

/-- C1: for a non-empty package list where the resolver produces a descriptor
for every package (and the build completes), the download set built by
`create_downloads_list` has key set equal to the union of the per-package
file keys, and the entry retained for every key is the one from the first
package (in input order) whose descriptor contained that key. -/
theorem createDownloadsList_merge_first_wins (V : Type) (env : BuildEnv V)
    (names : List String) (hne : names ≠ [])
    (hinit : env.pacInit = true) (hrel : env.releaseOk = true)
    (hres : ∀ n ∈ names, (env.resolver n).isSome) :
    ∃ dl, (createDownloadsList env names).1 = some dl ∧
      (∀ k, (alookup k dl).isSome ↔
        ∃ n ∈ names, ∃ i, env.resolver n = some i ∧ (alookup k i).isSome) ∧
      (∀ k, alookup k dl = firstEntry env.resolver names k) := by
  obtain ⟨dl, heq, hlk⟩ := createDownloadsList_success env names hinit hrel hres
  refine ⟨dl, by rw [heq], fun k => ?_, hlk⟩
  rw [hlk k]
  exact firstEntry_isSome_iff env.resolver names k hres

/-- Concrete build environment realizing the spec's end-to-end scenario:
package `a` resolves to `{f1: E1}`, package `b` to `{f1: E2, f2: E3}`. -/
def envA : BuildEnv String :=
  ⟨true,
   fun n =>
     if n = "a" then some [("f1", "E1")]
     else if n = "b" then some [("f1", "E2"), ("f2", "E3")]
     else none,
   true⟩

theorem createDownloadsList_merge_first_wins_witness :
    ((["a", "b"] : List String) ≠ []) ∧ envA.pacInit = true ∧ envA.releaseOk = true ∧
    (∀ n ∈ (["a", "b"] : List String), (envA.resolver n).isSome) ∧
    (∃ dl, (createDownloadsList envA ["a", "b"]).1 = some dl ∧
      (∀ k, (alookup k dl).isSome ↔
        ∃ n ∈ (["a", "b"] : List String), ∃ i, envA.resolver n = some i ∧
          (alookup k i).isSome) ∧
      (∀ k, alookup k dl = firstEntry envA.resolver ["a", "b"] k)) :=
  ⟨by decide, rfl, rfl, by decide,
   createDownloadsList_merge_first_wins String envA ["a", "b"] (by decide) rfl rfl
     (by decide)⟩

/-- C2: if the build phase fails at any point — resolver initialization
fails, any package's metalink cannot be created, or releasing the resolver
fails after a fully merged build — then `create_downloads_list` leaves
`downloads_list = None`: no partial set is observable. -/
theorem createDownloadsList_failure_none (V : Type) (env : BuildEnv V)
    (names : List String)
    (h : env.pacInit = false ∨ (∃ n ∈ names, env.resolver n = none) ∨
      env.releaseOk = false) :
    (createDownloadsList env names).1 = none := by
  rcases h with h | h | h
  · simp [createDownloadsList, h]
  · rcases Bool.eq_false_or_eq_true env.pacInit with hinit | hinit
    · have hb := buildLoop_none_of_fail env.resolver names [] 0 names.length
        [("percent", EventText.str "0"), ("info", EventText.str infoCreatingText)] h
      rw [createDownloadsList]
      simp only [hinit, Bool.true_eq_false, if_false]
      rw [hb]
    · simp [createDownloadsList, hinit]
  · rcases Bool.eq_false_or_eq_true env.pacInit with hinit | hinit
    · rw [createDownloadsList]
      simp only [hinit, Bool.true_eq_false, if_false]
      cases hb : (buildLoop env.resolver names [] 0 names.length
          [("percent", EventText.str "0"), ("info", EventText.str infoCreatingText)]).1 with
      | none => rfl
      | some dl => simp [h]
    · simp [createDownloadsList, hinit]

/-- Build environment whose resolver fails on every package. -/
def envFail : BuildEnv String := ⟨true, fun _ => none, true⟩

theorem createDownloadsList_failure_none_witness :
    (envFail.pacInit = false ∨ (∃ n ∈ (["a"] : List String), envFail.resolver n = none) ∨
      envFail.releaseOk = false) ∧
    (createDownloadsList envFail ["a"]).1 = none :=
  ⟨Or.inr (Or.inl ⟨"a", by decide, rfl⟩),
   createDownloadsList_failure_none String envFail ["a"]
     (Or.inr (Or.inl ⟨"a", by decide, rfl⟩))⟩

/-- C4: in a fully successful build of n ≥ 1 packages, the `'percent'` event
emitted after processing the k-th package carries `round(k/n, 2)`, the
sequence of percent values emitted across the run is monotonically
non-decreasing, and its final value is 1.0. -/
theorem createDownloadsList_percent_progress (V : Type) (env : BuildEnv V)
    (names : List String) (hne : names ≠ [])
    (hinit : env.pacInit = true) (hrel : env.releaseOk = true)
    (hres : ∀ n ∈ names, (env.resolver n).isSome) :
    (∀ k : ℕ, 1 ≤ k → k ≤ names.length →
      (percentEvents (createDownloadsList env names).2)[k]?
        = some ("percent",
            EventText.num (pyRound2 ((k : ℚ) / (names.length : ℚ))))) ∧
    List.Chain' (fun a b => a ≤ b)
      ((percentEvents (createDownloadsList env names).2).map (fun e => textVal e.2)) ∧
    ((percentEvents (createDownloadsList env names).2).map
        (fun e => textVal e.2)).getLast? = some 1 := by
  obtain ⟨dl, heq, _⟩ := createDownloadsList_success env names hinit hrel hres
  rw [heq]
  have hn : names.length ≠ 0 := by
    intro h0
    exact hne (List.length_eq_zero.mp h0)
  have hnq : (0 : ℚ) < (names.length : ℚ) := by
    exact_mod_cast Nat.pos_of_ne_zero hn
  refine ⟨?_, ?_, ?_⟩
  · intro k hk1 hk2
    obtain ⟨j, rfl⟩ : ∃ j, k = j + 1 := ⟨k - 1, by omega⟩
    show (percentEvents (successTrace names.length))[j + 1]? = _
    rw [percentEvents_successTrace, List.getElem?_cons_succ, List.getElem?_map,
      List.getElem?_range (by omega : j < names.length)]
    simp only [Option.map_some']
    congr 3
    push_cast
    ring
  · show List.Chain' (fun a b => a ≤ b)
      ((percentEvents (successTrace names.length)).map (fun e => textVal e.2))
    rw [percentVals_successTrace, List.chain'_map]
    refine (List.chain'_range_succ _ _).mpr (fun m hm => ?_)
    apply pyRound2_mono
    refine (div_le_div_iff_of_pos_right hnq).mpr ?_
    push_cast
    linarith
  · show ((percentEvents (successTrace names.length)).map
        (fun e => textVal e.2)).getLast? = some 1
    rw [percentVals_successTrace, List.range_succ, List.map_append,
      List.map_cons, List.map_nil, List.getLast?_concat]
    have : ((names.length : ℚ)) / (names.length : ℚ) = 1 := div_self (ne_of_gt hnq)
    rw [this, pyRound2_one]

theorem createDownloadsList_percent_progress_witness :
    ((["a", "b"] : List String) ≠ []) ∧ envA.pacInit = true ∧ envA.releaseOk = true ∧
    (∀ n ∈ (["a", "b"] : List String), (envA.resolver n).isSome) ∧
    ((∀ k : ℕ, 1 ≤ k → k ≤ (["a", "b"] : List String).length →
      (percentEvents (createDownloadsList envA ["a", "b"]).2)[k]?
        = some ("percent",
            EventText.num (pyRound2 ((k : ℚ) / (((["a", "b"] : List String).length : ℚ)))))) ∧
    List.Chain' (fun a b => a ≤ b)
      ((percentEvents (createDownloadsList envA ["a", "b"]).2).map (fun e => textVal e.2)) ∧
    ((percentEvents (createDownloadsList envA ["a", "b"]).2).map
        (fun e => textVal e.2)).getLast? = some 1) :=
  ⟨by decide, rfl, rfl, by decide,
   createDownloadsList_percent_progress String envA ["a", "b"] (by decide) rfl rfl
     (by decide)⟩

/-- Build environment whose resolver-handle initialization fails
(`pac.Pac(...)` raises). -/
def env8 : BuildEnv String := ⟨false, fun _ => none, true⟩

/-- C8 counterexample: when the package-database handle cannot be opened the
build does abort with `downloads_list = None`, but the claim that no
`'percent'` or `'info'` event is emitted before the failure is false: the
run emits the initial `('percent', '0')` and `'info'` events first. -/
theorem create_downloads_list_initial_events_cex :
    (createDownloadsList env8 ["a"]).1 = none ∧
    (createDownloadsList env8 ["a"]).2.filter
        (fun e => e.1 == "percent" || e.1 == "info") ≠ [] := by
  constructor
  · rfl
  · intro h
    simp [createDownloadsList, env8, infoCreatingText] at h

/-- C8 (amended): when the package-database resolver handle cannot be opened,
`create_downloads_list` aborts before any package is processed —
`downloads_list` is `None` and no per-package event is emitted — but the two
initial events, `('percent', '0')` and the `'info'` creating-list message,
are emitted before the failure. -/
theorem createDownloadsList_init_failure_events (V : Type) (env : BuildEnv V)
    (names : List String) (h : env.pacInit = false) :
    (createDownloadsList env names).1 = none ∧
    (createDownloadsList env names).2
      = [("percent", EventText.str "0"), ("info", EventText.str infoCreatingText)] := by
  constructor <;> simp [createDownloadsList, h]

theorem createDownloadsList_init_failure_events_witness :
    env8.pacInit = false ∧
    ((createDownloadsList env8 ["a"]).1 = none ∧
     (createDownloadsList env8 ["a"]).2
       = [("percent", EventText.str "0"), ("info", EventText.str infoCreatingText)]) :=
  ⟨rfl, createDownloadsList_init_failure_events String env8 ["a"] rfl⟩

/-- C3 (code_bug): the claim describes the intended backend-failure path
(`settings.set('failed_download', True)` followed by `InstallError`), but
`start` never reaches it: every call evaluates an unbound bare name
(`package_names` or `pacman_cache_dir`) and raises `NameError` first, so the
backend fetch is never invoked, `failed_download` is never written and no
`InstallError` is raised. -/
theorem start_fetch_failure_bug (V : Type) (st : CoordState V)
    (fetch : String → List (String × V) → Bool) :
    (start st fetch).settingsWrites = [] ∧
    (start st fetch).fetchCalls = [] ∧
    ∃ n, (start st fetch).result = Except.error (PyError.nameError n) := by
  unfold start
  cases st.downloads_list with
  | none => exact ⟨rfl, rfl, "package_names", rfl⟩
  | some dl => split_ifs <;> exact ⟨rfl, rfl, "pacman_cache_dir", rfl⟩

/-- C5 (code_bug): the claim describes the intended dispatch (construct the
backend named by `download_module`, defaulting to `requests`, and call its
fetch with the download set), but even with a built download set every
dispatch branch of `start` evaluates the unbound bare name
`pacman_cache_dir` and raises `NameError` before constructing any
backend. -/
theorem start_backend_dispatch_bug (V : Type) (pcf pcd cd dm : String)
    (dl : List (String × V)) (fetch : String → List (String × V) → Bool) :
    (start ⟨pcf, pcd, cd, dm, some dl⟩ fetch).backendCalls = [] ∧
    (start ⟨pcf, pcd, cd, dm, some dl⟩ fetch).result
      = Except.error (PyError.nameError "pacman_cache_dir") := by
  unfold start
  split_ifs <;> exact ⟨rfl, rfl⟩

/-- C9 (code_bug): `__init__` passes the raw constructor argument — not the
`self.pacman_cache_dir` attribute just computed from it — to `os.makedirs`,
so when the argument is omitted (`None`) the constructor raises `TypeError`
instead of creating the effective default directory; when a path is given,
that path is created with mode `0o755` and `exist_ok=True`. -/
theorem init_makedirs_none_bug (V : Type) (pn : List String) (dm : String)
    (pcf cd : Option String) (fs : String → Bool) (d : String) :
    initDownloadPackages V pn dm pcf none cd fs
      = Except.error (PyError.typeError makedirsNoneMsg) ∧
    ∃ st mk, initDownloadPackages V pn dm pcf (some d) cd fs = Except.ok (st, mk) ∧
      mk = MkdirCall.mk d 493 true :=
  ⟨rfl, _, _, rfl, rfl⟩

/-- C6: with a configured sink, running any sequence of `queue_event` calls
from a fresh instance never delivers two consecutive events of one type with
the same text, and the sequence `[(T,'a'), (T,'a'), (T,'b')]` delivers
exactly `(T,'a')` then `(T,'b')`. -/
theorem queue_event_dedup_delivery (c : ℕ) (evs : List Event) (T U : String)
    (hc : 2 ≤ c) :
    List.Chain' (fun a b => a ≠ b)
      (sinkTexts (runEvents ⟨[], some ⟨[], c⟩⟩ evs) U) ∧
    sinkItems (runEvents ⟨[], some ⟨[], c⟩⟩
        [(T, EventText.str "a"), (T, EventText.str "a"), (T, EventText.str "b")])
      = [(T, EventText.str "a"), (T, EventText.str "b")] := by
  constructor
  · exact chain_of_inv _ (runEvents_inv evs _ (DInv_fresh c)) U
  · have hc0 : 0 < c := by omega
    have hc1 : 1 < c := by omega
    simp [runEvents, queue_event, put_nowait, alookup, setAssoc, sinkItems, hc0, hc1]

theorem queue_event_dedup_delivery_witness :
    2 ≤ 2 ∧
    (List.Chain' (fun a b => a ≠ b)
      (sinkTexts (runEvents ⟨[], some ⟨[], 2⟩⟩
        [("info", EventText.str "s")]) "info") ∧
    sinkItems (runEvents ⟨[], some ⟨[], 2⟩⟩
        [("info", EventText.str "a"), ("info", EventText.str "a"),
         ("info", EventText.str "b")])
      = [("info", EventText.str "a"), ("info", EventText.str "b")]) :=
  ⟨by norm_num,
   queue_event_dedup_delivery 2 [("info", EventText.str "s")] "info" "info" (by norm_num)⟩

/-- C7: when the configured sink's queue is full, `queue_event` returns
normally (the `queue.Full` exception from the non-blocking `put_nowait` is
caught and ignored) and the event is not delivered: the queue is left
unchanged. -/
theorem queue_event_full_drop (st : DState) (qs : QueueState) (T : String)
    (x : EventText) (hq : st.callback_queue = some qs)
    (hfull : qs.capacity ≤ qs.items.length) :
    (queue_event st T x).delivered = none ∧
    (queue_event st T x).state.callback_queue = some qs := by
  unfold queue_event
  rw [hq]
  dsimp only
  by_cases hdup : alookup T st.last_event = some x
  · rw [if_pos hdup]
    exact ⟨rfl, hq⟩
  · rw [if_neg hdup]
    have hput : put_nowait qs (T, x) = none := by
      unfold put_nowait
      rw [if_neg (by omega)]
    rw [hput]
    exact ⟨rfl, rfl⟩

theorem queue_event_full_drop_witness :
    (DState.mk [] (some ⟨[("a", EventText.str "t")], 1⟩)).callback_queue
      = some ⟨[("a", EventText.str "t")], 1⟩ ∧
    (QueueState.mk [("a", EventText.str "t")] 1).capacity
      ≤ (QueueState.mk [("a", EventText.str "t")] 1).items.length ∧
    ((queue_event ⟨[], some ⟨[("a", EventText.str "t")], 1⟩⟩ "info"
        (EventText.str "y")).delivered = none ∧
     (queue_event ⟨[], some ⟨[("a", EventText.str "t")], 1⟩⟩ "info"
        (EventText.str "y")).state.callback_queue
       = some ⟨[("a", EventText.str "t")], 1⟩) :=
  ⟨rfl, by norm_num,
   queue_event_full_drop ⟨[], some ⟨[("a", EventText.str "t")], 1⟩⟩
     ⟨[("a", EventText.str "t")], 1⟩ "info" (EventText.str "y") rfl (by norm_num)⟩

/-- C10: an event `(T, x)` dropped because the sink's queue is full still
records `x` as the last-emitted text for `T`; a later `queue_event(T, x)` on
the same instance is then dropped by deduplication whatever the queue looks
like by then, so `x` is never delivered by that pair of calls. -/
theorem queue_event_drop_records_dedup (st : DState) (qs : QueueState)
    (T : String) (x : EventText) (hq : st.callback_queue = some qs)
    (hfull : qs.capacity ≤ qs.items.length)
    (hnd : alookup T st.last_event ≠ some x) :
    alookup T (queue_event st T x).state.last_event = some x ∧
    (queue_event st T x).delivered = none ∧
    ∀ (q : List Event) (cap : ℕ),
      (queue_event ⟨(queue_event st T x).state.last_event, some ⟨q, cap⟩⟩ T x).delivered
        = none ∧
      (queue_event ⟨(queue_event st T x).state.last_event, some ⟨q, cap⟩⟩ T x).state
        = ⟨(queue_event st T x).state.last_event, some ⟨q, cap⟩⟩ := by
  have hout : queue_event st T x
      = ⟨⟨setAssoc st.last_event T x, some qs⟩, none, none⟩ := by
    unfold queue_event
    rw [hq]
    dsimp only
    rw [if_neg hnd]
    have hput : put_nowait qs (T, x) = none := by
      unfold put_nowait
      rw [if_neg (by omega)]
    rw [hput]
  have hrec : alookup T (queue_event st T x).state.last_event = some x := by
    rw [hout]
    exact alookup_setAssoc_self _ _ _
  refine ⟨hrec, by rw [hout], fun q cap => ?_⟩
  set L := (queue_event st T x).state.last_event with hL
  have hrec' : alookup T L = some x := hrec
  constructor <;> (unfold queue_event; dsimp only; rw [if_pos hrec'])

theorem queue_event_drop_records_dedup_witness :
    (DState.mk [] (some ⟨[("a", EventText.str "z")], 1⟩)).callback_queue
      = some ⟨[("a", EventText.str "z")], 1⟩ ∧
    (QueueState.mk [("a", EventText.str "z")] 1).capacity
      ≤ (QueueState.mk [("a", EventText.str "z")] 1).items.length ∧
    alookup "info" (DState.mk [] (some ⟨[("a", EventText.str "z")], 1⟩)).last_event
      ≠ some (EventText.str "m") ∧
    (alookup "info"
        (queue_event ⟨[], some ⟨[("a", EventText.str "z")], 1⟩⟩ "info"
          (EventText.str "m")).state.last_event = some (EventText.str "m") ∧
     (queue_event ⟨[], some ⟨[("a", EventText.str "z")], 1⟩⟩ "info"
        (EventText.str "m")).delivered = none ∧
     ∀ (q : List Event) (cap : ℕ),
      (queue_event ⟨(queue_event ⟨[], some ⟨[("a", EventText.str "z")], 1⟩⟩ "info"
          (EventText.str "m")).state.last_event, some ⟨q, cap⟩⟩ "info"
          (EventText.str "m")).delivered = none ∧
      (queue_event ⟨(queue_event ⟨[], some ⟨[("a", EventText.str "z")], 1⟩⟩ "info"
          (EventText.str "m")).state.last_event, some ⟨q, cap⟩⟩ "info"
          (EventText.str "m")).state
        = ⟨(queue_event ⟨[], some ⟨[("a", EventText.str "z")], 1⟩⟩ "info"
            (EventText.str "m")).state.last_event, some ⟨q, cap⟩⟩) :=
  ⟨rfl, by norm_num, by decide,
   queue_event_drop_records_dedup ⟨[], some ⟨[("a", EventText.str "z")], 1⟩⟩
     ⟨[("a", EventText.str "z")], 1⟩ "info" (EventText.str "m") rfl (by norm_num)
     (by decide)⟩

end Cnchi
